import Mathlib

/-!
Shallow embedding of `src/polars_api_compat/cudf/dataframe_object.py`:
the eager `DataFrame` / deferred `LazyFrame` pair over a columnar frame.
Cell values are dynamically typed (modelled by `Val`); a frame is an ordered
list of named columns.  Helper functions that live outside this file
(`flatten_str`, `evaluate_into_exprs`, `validate_dataframe_comparand`,
`all_horizontal`, the underlying engine's `sort_values` / `assign` / `merge` /
`loc`) are modelled from the spec, and are marked as such in their doc
comments.  Fallible constructors and operations return `Except Err _`.
-/

namespace PolarsApiCompat

/-- A dynamically-typed cell value of the underlying columnar engine. -/
inductive Val where
  | vInt : Int → Val
  | vBool : Bool → Val
  | vStr : String → Val
deriving DecidableEq

/-- Whether a value is boolean-typed (`dtype == bool`). -/
def Val.isBool : Val → Bool
  | .vBool _ => true
  | _ => false

/-- Extract the boolean of a boolean-typed value. -/
def Val.toBool : Val → Bool
  | .vBool b => b
  | _ => false

/-- A named column of values, as produced by evaluating one expression branch
(`Series` in the source). -/
structure Series where
  name : String
  values : List Val
deriving DecidableEq

/-- The underlying columnar frame: an ordered list of named, equal-length
columns (the `pd.DataFrame` the wrappers hold). -/
structure Frame where
  cols : List (String × List Val)
deriving DecidableEq

/-- The column names, in order (`df.columns.tolist()`). -/
def Frame.names (f : Frame) : List String := f.cols.map Prod.fst

/-- The row count of the frame (length of its first column, 0 if empty). -/
def Frame.height (f : Frame) : Nat :=
  match f.cols with
  | [] => 0
  | c :: _ => c.2.length

/-- All columns have the same length (equal-length-columns invariant). -/
def Frame.wf (f : Frame) : Prop :=
  ∀ c ∈ f.cols, c.2.length = f.height

/-- The error taxonomy of the layer (each constructor corresponds to one
`raise` site / spec error kind, carrying the data the message interpolates). -/
inductive Err where
  /-- `ValueError: Expected unique column names, got {name} {count} time(s)` -/
  | duplicateName : String → Nat → Err
  /-- `TypeError` for a non-boolean filter mask. -/
  | typeErr : Err
  /-- `ValueError` for a misaligned comparand. -/
  | valueErr : Err
  /-- `ValueError: Only inner join supported for now` -/
  | notSupported : Err
  /-- `ValueError: Found overlapping columns in join: {overlap}` -/
  | nameCollision : List String → Err
deriving DecidableEq

/-- The keys of a Python `collections.Counter` built from `l`, in first
occurrence order (Python dict key order). -/
def counterKeys : List String → List String
  | [] => []
  | x :: xs => x :: (counterKeys xs).filter (fun k => k ≠ x)

/-- `_validate_columns`: count occurrences of every column name; raise
`ValueError` on a name occurring more than once, naming it and its count. -/
def validateColumns (names : List String) : Except Err Unit :=
  match (counterKeys names).find? (fun c => decide (1 < names.count c)) with
  | some c => .error (.duplicateName c (names.count c))
  | none => .ok ()

/-- The eager wrapper (`DataFrame`): a materialized frame plus api version. -/
structure DataFrame where
  df : Frame
  apiVersion : String
deriving DecidableEq

/-- The deferred wrapper (`LazyFrame`): the same data, lazy entry points. -/
structure LazyFrame where
  df : Frame
  apiVersion : String
deriving DecidableEq

/-- `DataFrame.__init__`: validate column-name uniqueness, then wrap. -/
def mkDataFrame (df : Frame) (apiVersion : String) : Except Err DataFrame :=
  match validateColumns df.names with
  | .error e => .error e
  | .ok _ => .ok ⟨df, apiVersion⟩

/-- `LazyFrame.__init__`: validate column-name uniqueness, then wrap. -/
def mkLazyFrame (df : Frame) (apiVersion : String) : Except Err LazyFrame :=
  match validateColumns df.names with
  | .error e => .error e
  | .ok _ => .ok ⟨df, apiVersion⟩

/-- `LazyFrame.collect`: wrap the same underlying frame in a `DataFrame`
(runs the `DataFrame` constructor, hence re-validates). -/
def LazyFrame.collect (l : LazyFrame) : Except Err DataFrame :=
  mkDataFrame l.df l.apiVersion

/-- `DataFrame.lazy`: wrap the same underlying frame in a `LazyFrame`. -/
def DataFrame.lazy (d : DataFrame) : Except Err LazyFrame :=
  mkLazyFrame d.df d.apiVersion

theorem mem_counterKeys {c : String} : ∀ {l : List String}, c ∈ counterKeys l ↔ c ∈ l
  | [] => Iff.rfl
  | x :: xs => by
    simp only [counterKeys, List.mem_cons, List.mem_filter, mem_counterKeys (l := xs),
      decide_eq_true_eq]
    constructor
    · rintro (rfl | ⟨h, _⟩)
      · exact Or.inl rfl
      · exact Or.inr h
    · rintro (rfl | h)
      · exact Or.inl rfl
      · by_cases hx : c = x
        · exact Or.inl hx
        · exact Or.inr ⟨h, hx⟩

theorem validateColumns_ok_iff {names : List String} :
    validateColumns names = .ok () ↔ names.Nodup := by
  unfold validateColumns
  rcases h : (counterKeys names).find? (fun c => decide (1 < names.count c)) with _ | c
  · simp only [true_iff]
    rw [List.nodup_iff_count_le_one]
    intro a
    by_contra hle
    push_neg at hle
    have ha : a ∈ counterKeys names := mem_counterKeys.2 (List.count_pos_iff.1 (by omega))
    have := List.find?_eq_none.1 h a ha
    simp only [decide_eq_true_eq] at this
    omega
  · simp only [reduceCtorEq, false_iff]
    have := List.find?_some h
    simp only [decide_eq_true_eq] at this
    rw [List.nodup_iff_count_le_one]
    intro hn
    have := hn c
    omega

theorem validateColumns_dup {names : List String} (h : ¬ names.Nodup) :
    ∃ c, validateColumns names = .error (.duplicateName c (names.count c)) ∧
      1 < names.count c := by
  rcases hf : (counterKeys names).find? (fun c => decide (1 < names.count c)) with _ | c
  · exfalso
    apply h
    rw [List.nodup_iff_count_le_one]
    intro a
    by_contra hle
    push_neg at hle
    have ha : a ∈ counterKeys names := mem_counterKeys.2 (List.count_pos_iff.1 (by omega))
    have := List.find?_eq_none.1 hf a ha
    simp only [decide_eq_true_eq] at this
    omega
  · refine ⟨c, ?_, ?_⟩
    · unfold validateColumns
      rw [hf]
    · have := List.find?_some hf
      simpa using this

theorem mkDataFrame_ok {df : Frame} {v : String} (h : df.names.Nodup) :
    mkDataFrame df v = .ok ⟨df, v⟩ := by
  unfold mkDataFrame
  rw [validateColumns_ok_iff.2 h]

theorem mkLazyFrame_ok {df : Frame} {v : String} (h : df.names.Nodup) :
    mkLazyFrame df v = .ok ⟨df, v⟩ := by
  unfold mkLazyFrame
  rw [validateColumns_ok_iff.2 h]

theorem mkDataFrame_dup {df : Frame} {v : String} (h : ¬ df.names.Nodup) :
    ∃ c, mkDataFrame df v = .error (.duplicateName c (df.names.count c)) ∧
      1 < df.names.count c := by
  obtain ⟨c, hc, hcount⟩ := validateColumns_dup h
  exact ⟨c, by unfold mkDataFrame; rw [hc], hcount⟩

theorem mkLazyFrame_dup {df : Frame} {v : String} (h : ¬ df.names.Nodup) :
    ∃ c, mkLazyFrame df v = .error (.duplicateName c (df.names.count c)) ∧
      1 < df.names.count c := by
  obtain ⟨c, hc, hcount⟩ := validateColumns_dup h
  exact ⟨c, by unfold mkLazyFrame; rw [hc], hcount⟩

/-- An expression: a pure, deferred computation that, evaluated against a
frame, yields one or more named `Series` (spec 4.1). -/
abbrev Expr := Frame → List Series

/-- Modelled from the spec: `evaluate_into_exprs` (in `polars_api_compat.utils`,
not under `src/`) evaluates each positional expression to its Series and each
keyword-bound expression renamed to its keyword, in order. -/
def evaluateIntoExprs (f : Frame) (exprs : List Expr)
    (namedExprs : List (String × Expr)) : List Series :=
  exprs.flatMap (fun e => e f) ++
    namedExprs.flatMap (fun p => (p.2 f).map (fun s => ⟨p.1, s.values⟩))

/-- One insertion step of a Python `dict` build: an existing key keeps its
position but takes the new value, a new key is appended. -/
def dictInsert (acc : List (String × List Val)) (kv : String × List Val) :
    List (String × List Val) :=
  if acc.any (fun c => c.1 = kv.1) then
    acc.map (fun c => if c.1 = kv.1 then kv else c)
  else acc ++ [kv]

/-- The Python `dict` built from an association list (`{s.name: s.series for s
in new_series}`): first-occurrence key order, last value wins. -/
def pyDict (l : List (String × List Val)) : List (String × List Val) :=
  l.foldl dictInsert []

/-- `LazyFrame.select`: evaluate the expressions, then
`pd.concat({series.name: series.series for series in new_series}, axis=1)`
— the dict keys become the columns — and wrap via the constructor. -/
def LazyFrame.select (l : LazyFrame) (exprs : List Expr)
    (namedExprs : List (String × Expr)) : Except Err LazyFrame :=
  let newSeries := evaluateIntoExprs l.df exprs namedExprs
  mkLazyFrame ⟨pyDict (newSeries.map (fun s => (s.name, s.values)))⟩ l.apiVersion

/-- Modelled from the spec: the engine's `DataFrame.assign` upserts each
keyword column in order — an existing column is overwritten in place (same
ordinal position), a new name is appended at the end (spec 4.2, 6(e)). -/
def assign (df : Frame) (kvs : List (String × List Val)) : Frame :=
  ⟨kvs.foldl dictInsert df.cols⟩

/-- `LazyFrame.with_columns`: evaluate the expressions, then
`self.dataframe.assign(**{series.name: series.series for series in new_series})`
and wrap via the constructor. -/
def LazyFrame.withColumns (l : LazyFrame) (exprs : List Expr)
    (namedExprs : List (String × Expr)) : Except Err LazyFrame :=
  let newSeries := evaluateIntoExprs l.df exprs namedExprs
  mkLazyFrame (assign l.df (pyDict (newSeries.map (fun s => (s.name, s.values)))))
    l.apiVersion

/-- Row-wise AND of two mask values; a non-boolean operand poisons the result
with a non-boolean value. -/
def valAnd (a b : Val) : Val :=
  match a, b with
  | .vBool x, .vBool y => .vBool (x && y)
  | .vBool _, b => b
  | a, _ => a

/-- Modelled from the spec: the namespace's `all_horizontal(*predicates)` ANDs
the predicates' Series column-wise into a single Series (spec 4.1); with no
predicates every row is kept. -/
def allHorizontal (f : Frame) (preds : List Expr) : Series :=
  ⟨"", ((preds.flatMap (fun e => e f)).map Series.values).foldl
    (fun acc v => acc.zipWith valAnd v)
    (List.replicate f.height (.vBool true))⟩

/-- Modelled from the spec: `validate_dataframe_comparand` (in
`polars_api_compat.utils`, not under `src/`) checks the candidate mask is
boolean-typed for every row (`TypeError` otherwise, spec 4.3(b), 7) and
positionally alignable with the frame (`ValueError` otherwise, spec 4.3(c)),
returning the validated boolean mask. -/
def validateDataframeComparand (f : Frame) (mask : Series) :
    Except Err (List Bool) :=
  if mask.values.all Val.isBool then
    if mask.values.length = f.height then .ok (mask.values.map Val.toBool)
    else .error .valueErr
  else .error .typeErr

/-- Keep the entries of `xs` whose mask bit is true, in order
(the engine's boolean-mask row selection, `df.loc[mask]`). -/
def maskFilter (m : List Bool) (xs : List α) : List α :=
  ((xs.zip m).filter (fun p => p.2)).map Prod.fst

/-- `LazyFrame.filter`: combine the predicates with `all_horizontal`, validate
the mask, then keep the rows where the mask is true. -/
def LazyFrame.filter (l : LazyFrame) (preds : List Expr) : Except Err LazyFrame :=
  let mask := allHorizontal l.df preds
  match validateDataframeComparand l.df mask with
  | .error e => .error e
  | .ok bools =>
      mkLazyFrame ⟨l.df.cols.map (fun c => (c.1, maskFilter bools c.2))⟩ l.apiVersion

theorem maskFilter_sublist : ∀ (m : List Bool) (xs : List α),
    (maskFilter m xs).Sublist xs
  | _, [] => by simp [maskFilter]
  | [], _ :: _ => by simp [maskFilter]
  | b :: m, x :: xs => by
    rcases b with _ | _
    · simpa [maskFilter, List.filter, List.zip] using
        (maskFilter_sublist m xs).cons x
    · simpa [maskFilter, List.filter, List.zip] using
        (maskFilter_sublist m xs).cons₂ x

/-- Modelled from the spec: `flatten_str` (in `polars_api_compat.utils`, not
under `src/`) flattens a mix of bare strings and iterables of strings into one
flat ordered list, duplicates preserved (spec 6). -/
def flattenStr (keys : List (String ⊕ List String)) : List String :=
  keys.flatMap (fun k => match k with | .inl s => [s] | .inr l => l)

/-- A sort key for the total order on dynamically-typed values: values of
distinct dtypes are ranked by dtype, values of one dtype by their own order. -/
def Val.key : Val → Nat ×ₗ Int ×ₗ String
  | .vInt x => toLex (0, toLex (x, ""))
  | .vBool b => toLex (1, toLex (cond b 1 0, ""))
  | .vStr s => toLex (2, toLex (0, s))

theorem Val.key_injective : Function.Injective Val.key := by
  rintro (x | x | x) (y | y | y) h <;>
    simp only [Val.key, toLex_inj, Prod.mk.injEq] at h <;> simp_all
  rcases x <;> rcases y <;> simp_all

/-- Strict comparison of two values in the engine's sort order. -/
def valLt (a b : Val) : Bool := decide (a.key < b.key)

theorem valLt_trans {a b c : Val} (h1 : valLt a b = true) (h2 : valLt b c = true) :
    valLt a c = true := by
  simp only [valLt, decide_eq_true_eq] at *
  exact lt_trans h1 h2

theorem valLt_asymm {a b : Val} (h1 : valLt a b = true) (h2 : valLt b a = true) :
    False := by
  simp only [valLt, decide_eq_true_eq] at *
  exact absurd h2 (lt_asymm h1)

theorem valLt_or {a b : Val} (h : a ≠ b) : valLt a b = true ∨ valLt b a = true := by
  simp only [valLt, decide_eq_true_eq]
  exact lt_or_gt_of_ne (fun hk => h (Val.key_injective hk))

/-- Directed strict comparison: `a` before `b` under the ascending flag. -/
def dirLt : Bool → Val → Val → Bool
  | true, a, b => valLt a b
  | false, a, b => valLt b a

theorem dirLt_trans {asc : Bool} {a b c : Val} (h1 : dirLt asc a b = true)
    (h2 : dirLt asc b c = true) : dirLt asc a c = true := by
  cases asc <;> simp only [dirLt] at * <;>
    [exact valLt_trans h2 h1; exact valLt_trans h1 h2]

theorem dirLt_asymm {asc : Bool} {a b : Val} (h1 : dirLt asc a b = true)
    (h2 : dirLt asc b a = true) : False := by
  cases asc <;> simp only [dirLt] at * <;> exact valLt_asymm h1 h2

theorem dirLt_or {asc : Bool} {a b : Val} (h : a ≠ b) :
    dirLt asc a b = true ∨ dirLt asc b a = true := by
  cases asc <;> simp only [dirLt] <;> [exact (valLt_or h).symm; exact valLt_or h]

/-- `rowLe ks i j`: row `i` precedes-or-ties row `j` under the lexicographic
comparison of the key columns `ks` (each column paired with its ascending
flag), with the original position as final tiebreak — the canonical model of a
stable multi-key sort. -/
def rowLe : List (List Val × Bool) → Nat → Nat → Bool
  | [], i, j => decide (i ≤ j)
  | k :: rest, i, j =>
    if k.1.getD i (.vInt 0) = k.1.getD j (.vInt 0) then rowLe rest i j
    else dirLt k.2 (k.1.getD i (.vInt 0)) (k.1.getD j (.vInt 0))

theorem rowLe_trans : ∀ (ks : List (List Val × Bool)) (i j l : Nat),
    rowLe ks i j → rowLe ks j l → rowLe ks i l
  | [], i, j, l, h1, h2 => by
    simp only [rowLe, decide_eq_true_eq] at *
    omega
  | k :: rest, i, j, l, h1, h2 => by
    revert h1 h2
    simp only [rowLe]
    generalize k.1.getD i (Val.vInt 0) = a
    generalize k.1.getD j (Val.vInt 0) = b
    generalize k.1.getD l (Val.vInt 0) = c
    intro h1 h2
    by_cases hab : a = b <;> by_cases hbc : b = c
    · subst hab
      subst hbc
      rw [if_pos rfl] at h1 h2 ⊢
      exact rowLe_trans rest i j l h1 h2
    · subst hab
      rw [if_neg hbc] at h2 ⊢
      exact h2
    · subst hbc
      rw [if_neg hab] at h1 ⊢
      exact h1
    · rw [if_neg hab] at h1
      rw [if_neg hbc] at h2
      have hac : a ≠ c := by
        rintro rfl
        exact dirLt_asymm h1 h2
      rw [if_neg hac]
      exact dirLt_trans h1 h2

theorem rowLe_total : ∀ (ks : List (List Val × Bool)) (i j : Nat),
    rowLe ks i j ∨ rowLe ks j i
  | [], i, j => by
    simp only [rowLe, decide_eq_true_eq]
    omega
  | k :: rest, i, j => by
    simp only [rowLe]
    by_cases hab : k.1.getD i (Val.vInt 0) = k.1.getD j (Val.vInt 0)
    · rw [if_pos hab, if_pos hab.symm]
      exact rowLe_total rest i j
    · rw [if_neg hab, if_neg (Ne.symm hab)]
      exact dirLt_or hab

/-- The key values of row `i` across the sort keys. -/
def keyValsAt (ks : List (List Val × Bool)) (i : Nat) : List Val :=
  ks.map (fun k => k.1.getD i (.vInt 0))

theorem rowLe_of_keyValsAt_eq : ∀ {ks : List (List Val × Bool)} {i j : Nat},
    keyValsAt ks i = keyValsAt ks j → rowLe ks i j = decide (i ≤ j)
  | [], i, j, _ => rfl
  | k :: rest, i, j, h => by
    simp only [keyValsAt, List.map_cons, List.cons.injEq] at h
    simp only [rowLe, if_pos h.1]
    exact rowLe_of_keyValsAt_eq h.2

/-- Insert `a` into `l` before the first element it compares `le` to. -/
def insertLe (le : α → α → Bool) (a : α) : List α → List α
  | [] => [a]
  | b :: bs => if le a b then a :: b :: bs else b :: insertLe le a bs

/-- Sort by repeated insertion; since the comparisons used here are total
orders (final index tiebreak), the result is the unique `le`-sorted
permutation of the input. -/
def insertionSort (le : α → α → Bool) : List α → List α
  | [] => []
  | a :: as => insertLe le a (insertionSort le as)

theorem insertLe_perm (le : α → α → Bool) (a : α) :
    ∀ l : List α, (insertLe le a l).Perm (a :: l)
  | [] => List.Perm.refl _
  | b :: bs => by
    simp only [insertLe]
    split
    · exact List.Perm.refl _
    · exact ((insertLe_perm le a bs).cons b).trans (List.Perm.swap a b bs)

theorem insertionSort_perm (le : α → α → Bool) :
    ∀ l : List α, (insertionSort le l).Perm l
  | [] => List.Perm.refl _
  | a :: as =>
    (insertLe_perm le a (insertionSort le as)).trans
      ((insertionSort_perm le as).cons a)

theorem insertLe_pairwise {le : α → α → Bool}
    (htrans : ∀ a b c, le a b → le b c → le a c)
    (htotal : ∀ a b, le a b ∨ le b a) (a : α) :
    ∀ {l : List α}, l.Pairwise (le · ·) → (insertLe le a l).Pairwise (le · ·)
  | [], _ => List.pairwise_singleton _ a
  | b :: bs, h => by
    obtain ⟨hb, hbs⟩ := List.pairwise_cons.1 h
    simp only [insertLe]
    split
    · refine List.pairwise_cons.2 ⟨?_, h⟩
      intro x hx
      rcases List.mem_cons.1 hx with rfl | hx
      · assumption
      · exact htrans a b x (by assumption) (hb x hx)
    · refine List.pairwise_cons.2 ⟨?_, insertLe_pairwise htrans htotal a hbs⟩
      intro x hx
      have hx' := (insertLe_perm le a bs).mem_iff.1 hx
      rcases List.mem_cons.1 hx' with rfl | hx'
      · rcases htotal b x with hbx | hxb
        · exact hbx
        · exact absurd hxb (by assumption)
      · exact hb x hx'

theorem insertionSort_pairwise {le : α → α → Bool}
    (htrans : ∀ a b c, le a b → le b c → le a c)
    (htotal : ∀ a b, le a b ∨ le b a) :
    ∀ l : List α, (insertionSort le l).Pairwise (le · ·)
  | [] => List.Pairwise.nil
  | a :: as =>
    insertLe_pairwise htrans htotal a (insertionSort_pairwise htrans htotal as)

/-- The row order produced by the stable sort: the indices `0..n-1` sorted by
`rowLe ks`. -/
def sortIndices (ks : List (List Val × Bool)) (n : Nat) : List Nat :=
  insertionSort (rowLe ks) (List.range n)

/-- The values of the column named `k` (`df[k]`), `[]` when absent. -/
def colOf (df : Frame) (k : String) : List Val :=
  match df.cols.find? (fun c => c.1 == k) with
  | some c => c.2
  | none => []

/-- Modelled from the spec: the engine's `sort_values(keys, ascending)` —
stable row reordering by the key columns left to right, each with its
ascending flag (spec 4.3 sort, 6(c)). -/
def sortValues (df : Frame) (keys : List String) (asc : List Bool) : Frame :=
  let ks := (keys.zip asc).map (fun p => (colOf df p.1, p.2))
  let ord := sortIndices ks df.height
  ⟨df.cols.map (fun c => (c.1, ord.map (fun i => c.2.getD i (.vInt 0))))⟩

/-- `LazyFrame.sort`: flatten the keys, default to all columns when none are
given, turn `descending` into the engine's `ascending` argument (a scalar is
broadcast over all keys, a sequence is negated element-wise), and delegate. -/
def LazyFrame.sort (l : LazyFrame) (keys : List (String ⊕ List String))
    (descending : Bool ⊕ List Bool) : Except Err LazyFrame :=
  let flatKeys0 := flattenStr keys
  let flatKeys := if flatKeys0 = [] then l.df.names else flatKeys0
  let ascending : List Bool :=
    match descending with
    | .inl b => List.replicate flatKeys.length (!b)
    | .inr ds => ds.map (fun d => !d)
  mkLazyFrame (sortValues l.df flatKeys ascending) l.apiVersion

/-- The `how` argument of `join` (`Literal["left", "inner", "outer"]`). -/
inductive JoinHow where
  | left | inner | outer
deriving DecidableEq

/-- A `str | list[str]` key argument of `join`. -/
abbrev KeySpec := String ⊕ List String

/-- `join`'s normalization: a bare string becomes a one-element list. -/
def normKeys : KeySpec → List String
  | .inl s => [s]
  | .inr l => l

/-- The overlap `(set(self.columns) - set(left_on)) ∩ (set(other.columns) -
set(right_on))` of a join, as the list of self columns in it. -/
def overlapCols (selfCols otherCols lo ro : List String) : List String :=
  selfCols.filter (fun c => decide (c ∉ lo ∧ c ∈ otherCols ∧ c ∉ ro))

/-- `LazyFrame.join`: reject any `how` other than `inner`; normalize the keys;
fail on overlapping non-key columns; otherwise delegate to the engine's
`merge` (passed as a parameter, since the merge itself is external) and wrap
via the constructor. -/
def LazyFrame.join (l o : LazyFrame) (how : JoinHow) (leftOn rightOn : KeySpec)
    (merge : Frame → Frame → List String → List String → Frame) :
    Except Err LazyFrame :=
  if how ≠ .inner then .error .notSupported
  else
    let lo := normKeys leftOn
    let ro := normKeys rightOn
    let ov := overlapCols l.df.names o.df.names lo ro
    if ov ≠ [] then .error (.nameCollision ov)
    else mkLazyFrame (merge l.df o.df lo ro) l.apiVersion

/-- The backend a class or namespace object belongs to (its module). -/
inductive Backend where
  | pandas | cudf
deriving DecidableEq

/-- A backend namespace handle (`polars_api_compat.<backend>.Namespace`). -/
structure Namespace where
  backend : Backend
  apiVersion : String
deriving DecidableEq

/-- `DataFrame.__dataframe_namespace__`: returns
`polars_api_compat.pandas.Namespace(api_version=self.api_version)`. -/
def DataFrame.dataframeNamespace (d : DataFrame) : Namespace :=
  ⟨.pandas, d.apiVersion⟩

/-- `LazyFrame.__lazyframe_namespace__`: returns
`polars_api_compat.pandas.Namespace(api_version=self.api_version)`. -/
def LazyFrame.lazyframeNamespace (l : LazyFrame) : Namespace :=
  ⟨.pandas, l.apiVersion⟩

/-- An eager group-by object (`GroupBy(self, flatten_str(*keys), ...)` from
`polars_api_compat.pandas.group_by_object`). -/
structure GroupBy where
  backend : Backend
  parent : DataFrame
  keys : List String
  apiVersion : String

/-- A lazy group-by object (`LazyGroupBy(self, flatten_str(*keys), ...)` from
`polars_api_compat.pandas.group_by_object`). -/
structure LazyGroupBy where
  backend : Backend
  parent : LazyFrame
  keys : List String
  apiVersion : String

/-- `DataFrame.group_by`: builds the pandas backend's `GroupBy` over the
flattened keys. -/
def DataFrame.groupBy (d : DataFrame) (keys : List (String ⊕ List String)) :
    GroupBy :=
  ⟨.pandas, d, flattenStr keys, d.apiVersion⟩

/-- `LazyFrame.group_by`: builds the pandas backend's `LazyGroupBy` over the
flattened keys. -/
def LazyFrame.groupBy (l : LazyFrame) (keys : List (String ⊕ List String)) :
    LazyGroupBy :=
  ⟨.pandas, l, flattenStr keys, l.apiVersion⟩

/-- `DataFrame.select`: `self.lazy().select(*exprs, **named_exprs).collect()`. -/
def DataFrame.select (d : DataFrame) (exprs : List Expr)
    (namedExprs : List (String × Expr)) : Except Err DataFrame :=
  d.lazy.bind fun lf => (lf.select exprs namedExprs).bind LazyFrame.collect

/-- `DataFrame.filter`: `self.lazy().filter(*predicates).collect()`. -/
def DataFrame.filter (d : DataFrame) (preds : List Expr) : Except Err DataFrame :=
  d.lazy.bind fun lf => (lf.filter preds).bind LazyFrame.collect

/-- `DataFrame.with_columns`:
`self.lazy().with_columns(*exprs, **named_exprs).collect()`. -/
def DataFrame.withColumns (d : DataFrame) (exprs : List Expr)
    (namedExprs : List (String × Expr)) : Except Err DataFrame :=
  d.lazy.bind fun lf => (lf.withColumns exprs namedExprs).bind LazyFrame.collect

/-- `DataFrame.sort`: `self.lazy().sort(*keys, descending=descending).collect()`. -/
def DataFrame.sort (d : DataFrame) (keys : List (String ⊕ List String))
    (descending : Bool ⊕ List Bool) : Except Err DataFrame :=
  d.lazy.bind fun lf => (lf.sort keys descending).bind LazyFrame.collect

/-- `DataFrame.join`:
`self.lazy().join(other.lazy(), how=how, left_on=left_on, right_on=right_on).collect()`. -/
def DataFrame.join (d o : DataFrame) (how : JoinHow) (leftOn rightOn : KeySpec)
    (merge : Frame → Frame → List String → List String → Frame) :
    Except Err DataFrame :=
  d.lazy.bind fun lf => o.lazy.bind fun olf =>
    (lf.join olf how leftOn rightOn merge).bind LazyFrame.collect

/-- C6: constructing a `DataFrame` or `LazyFrame` over an underlying frame with
any column name occurring more than once fails with a DuplicateName error that
identifies the duplicated name and its occurrence count, and constructing with
all-unique column names succeeds. -/
theorem c6_construction_duplicate_name (df : Frame) (v : String) :
    (¬ df.names.Nodup →
      (∃ c, mkDataFrame df v = .error (.duplicateName c (df.names.count c)) ∧
        1 < df.names.count c) ∧
      (∃ c, mkLazyFrame df v = .error (.duplicateName c (df.names.count c)) ∧
        1 < df.names.count c)) ∧
    (df.names.Nodup →
      mkDataFrame df v = .ok ⟨df, v⟩ ∧ mkLazyFrame df v = .ok ⟨df, v⟩) := by
  constructor
  · intro h
    exact ⟨mkDataFrame_dup h, mkLazyFrame_dup h⟩
  · intro h
    exact ⟨mkDataFrame_ok h, mkLazyFrame_ok h⟩

theorem c6_construction_duplicate_name_witness :
    ((∃ c, mkDataFrame ⟨[("a", [Val.vInt 1]), ("a", [Val.vInt 2])]⟩ "v" =
        .error (.duplicateName c
          ((Frame.mk [("a", [Val.vInt 1]), ("a", [Val.vInt 2])]).names.count c)) ∧
      1 < (Frame.mk [("a", [Val.vInt 1]), ("a", [Val.vInt 2])]).names.count c) ∧
     (∃ c, mkLazyFrame ⟨[("a", [Val.vInt 1]), ("a", [Val.vInt 2])]⟩ "v" =
        .error (.duplicateName c
          ((Frame.mk [("a", [Val.vInt 1]), ("a", [Val.vInt 2])]).names.count c)) ∧
      1 < (Frame.mk [("a", [Val.vInt 1]), ("a", [Val.vInt 2])]).names.count c)) ∧
    (mkDataFrame ⟨[("a", [Val.vInt 1]), ("b", [Val.vInt 2])]⟩ "v" =
        .ok ⟨⟨[("a", [Val.vInt 1]), ("b", [Val.vInt 2])]⟩, "v"⟩ ∧
      mkLazyFrame ⟨[("a", [Val.vInt 1]), ("b", [Val.vInt 2])]⟩ "v" =
        .ok ⟨⟨[("a", [Val.vInt 1]), ("b", [Val.vInt 2])]⟩, "v"⟩) :=
  ⟨(c6_construction_duplicate_name ⟨[("a", [Val.vInt 1]), ("a", [Val.vInt 2])]⟩ "v").1
      (by decide),
   (c6_construction_duplicate_name ⟨[("a", [Val.vInt 1]), ("b", [Val.vInt 2])]⟩ "v").2
      (by decide)⟩

/-- C9: `collect` materializes a `LazyFrame` into a `DataFrame` whose
underlying frame (rows and columns) is identical — an identity wrap, no
transformation of the data. -/
theorem c9_collect_identity_wrap (l : LazyFrame) (h : l.df.names.Nodup) :
    l.collect = .ok ⟨l.df, l.apiVersion⟩ :=
  mkDataFrame_ok h

theorem c9_collect_identity_wrap_witness :
    LazyFrame.collect ⟨⟨[("a", [Val.vInt 1, Val.vInt 2])]⟩, "v"⟩ =
      .ok ⟨⟨[("a", [Val.vInt 1, Val.vInt 2])]⟩, "v"⟩ :=
  c9_collect_identity_wrap ⟨⟨[("a", [Val.vInt 1, Val.vInt 2])]⟩, "v"⟩ (by decide)

/-- C2: every eager `DataFrame` operation among select, filter, with_columns,
sort and join returns exactly `self.lazy().<op>(...).collect()` — the eager
type implements no tabular transformation logic of its own. -/
theorem c2_eager_delegates_to_lazy (d o : DataFrame) (exprs : List Expr)
    (namedExprs : List (String × Expr)) (preds : List Expr)
    (keys : List (String ⊕ List String)) (descending : Bool ⊕ List Bool)
    (how : JoinHow) (leftOn rightOn : KeySpec)
    (merge : Frame → Frame → List String → List String → Frame) :
    d.select exprs namedExprs =
      d.lazy.bind (fun lf => (lf.select exprs namedExprs).bind LazyFrame.collect) ∧
    d.filter preds =
      d.lazy.bind (fun lf => (lf.filter preds).bind LazyFrame.collect) ∧
    d.withColumns exprs namedExprs =
      d.lazy.bind (fun lf => (lf.withColumns exprs namedExprs).bind LazyFrame.collect) ∧
    d.sort keys descending =
      d.lazy.bind (fun lf => (lf.sort keys descending).bind LazyFrame.collect) ∧
    d.join o how leftOn rightOn merge =
      d.lazy.bind (fun lf => o.lazy.bind fun olf =>
        (lf.join olf how leftOn rightOn merge).bind LazyFrame.collect) :=
  ⟨rfl, rfl, rfl, rfl, rfl⟩

/-- C10: regardless of api_version, the cudf-backed wrappers return the pandas
backend's `Namespace` from `__dataframe_namespace__` / `__lazyframe_namespace__`,
and `group_by` returns the pandas backend's `GroupBy` / `LazyGroupBy` wrapping
the flattened key list. -/
theorem c10_pandas_namespace_and_group_by (d : DataFrame) (l : LazyFrame)
    (keys : List (String ⊕ List String)) :
    d.dataframeNamespace = ⟨Backend.pandas, d.apiVersion⟩ ∧
    l.lazyframeNamespace = ⟨Backend.pandas, l.apiVersion⟩ ∧
    d.groupBy keys = ⟨Backend.pandas, d, flattenStr keys, d.apiVersion⟩ ∧
    l.groupBy keys = ⟨Backend.pandas, l, flattenStr keys, l.apiVersion⟩ :=
  ⟨rfl, rfl, rfl, rfl⟩

/-- C1 (failing input): the spec requires `select` to fail with a DuplicateName
error when two resulting Series share a name, and never to silently drop or
merge one of them; here two Series named `a` are produced and `select`
silently keeps only the last one (the Python dict comprehension
`{series.name: series.series for series in new_series}` dedupes the names
before the Frame constructor can see a duplicate), returning a frame with the
single column `a = [2]` instead of raising. -/
theorem c1_select_silently_merges_duplicates :
    LazyFrame.select ⟨⟨[("a", [Val.vInt 1])]⟩, "v"⟩
        [fun _ => [⟨"a", [Val.vInt 1]⟩], fun _ => [⟨"a", [Val.vInt 2]⟩]] [] =
      .ok ⟨⟨[("a", [Val.vInt 2])]⟩, "v"⟩ := rfl

/-- C3: join with any `how` other than `inner` fails with the NotSupported
error, before the overlap computation and before the underlying merge is
invoked: the failure is the same for every merge function and every pair of
frames, overlapping or not. Holds for `LazyFrame.join` and, through the lazy
path, for `DataFrame.join`. -/
theorem c3_join_rejects_non_inner (A B : LazyFrame) (d1 d2 : DataFrame)
    (how : JoinHow) (leftOn rightOn : KeySpec)
    (merge : Frame → Frame → List String → List String → Frame)
    (hhow : how ≠ .inner) :
    A.join B how leftOn rightOn merge = .error .notSupported ∧
    (d1.df.names.Nodup → d2.df.names.Nodup →
      d1.join d2 how leftOn rightOn merge = .error .notSupported) := by
  constructor
  · unfold LazyFrame.join
    rw [if_pos hhow]
  · intro h1 h2
    unfold DataFrame.join DataFrame.lazy
    rw [mkLazyFrame_ok h1, mkLazyFrame_ok h2]
    show (LazyFrame.join _ _ how leftOn rightOn merge).bind LazyFrame.collect = _
    unfold LazyFrame.join
    rw [if_pos hhow]
    rfl

theorem c3_join_rejects_non_inner_witness :
    LazyFrame.join ⟨⟨[("id", [Val.vInt 1])]⟩, "v"⟩ ⟨⟨[("id", [Val.vInt 1])]⟩, "v"⟩
        JoinHow.left (.inl "id") (.inl "id") (fun a _ _ _ => a) =
      .error .notSupported ∧
    DataFrame.join ⟨⟨[("id", [Val.vInt 1])]⟩, "v"⟩ ⟨⟨[("id", [Val.vInt 1])]⟩, "v"⟩
        JoinHow.left (.inl "id") (.inl "id") (fun a _ _ _ => a) =
      .error .notSupported :=
  ⟨(c3_join_rejects_non_inner ⟨⟨[("id", [Val.vInt 1])]⟩, "v"⟩
      ⟨⟨[("id", [Val.vInt 1])]⟩, "v"⟩ ⟨⟨[("id", [Val.vInt 1])]⟩, "v"⟩
      ⟨⟨[("id", [Val.vInt 1])]⟩, "v"⟩ JoinHow.left (.inl "id") (.inl "id")
      (fun a _ _ _ => a) (by decide)).1,
   (c3_join_rejects_non_inner ⟨⟨[("id", [Val.vInt 1])]⟩, "v"⟩
      ⟨⟨[("id", [Val.vInt 1])]⟩, "v"⟩ ⟨⟨[("id", [Val.vInt 1])]⟩, "v"⟩
      ⟨⟨[("id", [Val.vInt 1])]⟩, "v"⟩ JoinHow.left (.inl "id") (.inl "id")
      (fun a _ _ _ => a) (by decide)).2 (by decide) (by decide)⟩

/-- C4: inner join normalizes string keys to one-element lists, computes
`overlap = (A.columns − left_on) ∩ (B.columns − right_on)`; a non-empty
overlap fails with a NameCollision error carrying exactly the colliding names,
for every merge function (so before the merge runs); an empty overlap
delegates the merge to the engine with the normalized keys. -/
theorem c4_join_overlap_check (A B : LazyFrame) (leftOn rightOn : KeySpec)
    (merge : Frame → Frame → List String → List String → Frame) :
    (∀ c, c ∈ overlapCols A.df.names B.df.names (normKeys leftOn) (normKeys rightOn) ↔
      (c ∈ A.df.names ∧ c ∉ normKeys leftOn ∧
        c ∈ B.df.names ∧ c ∉ normKeys rightOn)) ∧
    (overlapCols A.df.names B.df.names (normKeys leftOn) (normKeys rightOn) ≠ [] →
      A.join B .inner leftOn rightOn merge =
        .error (.nameCollision
          (overlapCols A.df.names B.df.names (normKeys leftOn) (normKeys rightOn)))) ∧
    (overlapCols A.df.names B.df.names (normKeys leftOn) (normKeys rightOn) = [] →
      A.join B .inner leftOn rightOn merge =
        mkLazyFrame (merge A.df B.df (normKeys leftOn) (normKeys rightOn))
          A.apiVersion) ∧
    (∀ s, normKeys (.inl s) = [s]) := by
  refine ⟨?_, ?_, ?_, fun _ => rfl⟩
  · intro c
    simp [overlapCols, List.mem_filter]
  · intro hov
    unfold LazyFrame.join
    rw [if_neg (by simp), if_pos hov]
  · intro hov
    unfold LazyFrame.join
    rw [if_neg (by simp)]
    simp only [hov]
    rw [if_neg (by simp)]

theorem c4_join_overlap_check_witness :
    LazyFrame.join ⟨⟨[("id", [Val.vInt 1]), ("x", [Val.vInt 2])]⟩, "v"⟩
        ⟨⟨[("id", [Val.vInt 1]), ("x", [Val.vInt 3])]⟩, "v"⟩
        .inner (.inl "id") (.inl "id") (fun a _ _ _ => a) =
      .error (.nameCollision ["x"]) ∧
    LazyFrame.join ⟨⟨[("id", [Val.vInt 1]), ("x", [Val.vInt 2])]⟩, "v"⟩
        ⟨⟨[("id", [Val.vInt 1]), ("y", [Val.vInt 3])]⟩, "v"⟩
        .inner (.inl "id") (.inl "id") (fun a _ _ _ => a) =
      .ok ⟨⟨[("id", [Val.vInt 1]), ("x", [Val.vInt 2])]⟩, "v"⟩ :=
  ⟨(c4_join_overlap_check ⟨⟨[("id", [Val.vInt 1]), ("x", [Val.vInt 2])]⟩, "v"⟩
      ⟨⟨[("id", [Val.vInt 1]), ("x", [Val.vInt 3])]⟩, "v"⟩ (.inl "id") (.inl "id")
      (fun a _ _ _ => a)).2.1 (by decide),
   (c4_join_overlap_check ⟨⟨[("id", [Val.vInt 1]), ("x", [Val.vInt 2])]⟩, "v"⟩
      ⟨⟨[("id", [Val.vInt 1]), ("y", [Val.vInt 3])]⟩, "v"⟩ (.inl "id") (.inl "id")
      (fun a _ _ _ => a)).2.2.1 (by decide)⟩

/-- C5: if the combined mask obtained from `all_horizontal` over the
predicates is not boolean-typed for every row, `filter` fails with TypeError
and no result frame is produced; if the mask is boolean (and aligned, which
the expressions' length contract guarantees), each column of the result is a
sublist of the original column — retained rows keep their original relative
order — and the row count is at most the original. -/
theorem c5_filter_boolean_mask (l : LazyFrame) (preds : List Expr) :
    ((∃ v ∈ (allHorizontal l.df preds).values, v.isBool = false) →
      l.filter preds = .error .typeErr) ∧
    (l.df.names.Nodup →
      (∀ v ∈ (allHorizontal l.df preds).values, v.isBool = true) →
      (allHorizontal l.df preds).values.length = l.df.height →
      l.filter preds = .ok ⟨⟨l.df.cols.map (fun c =>
          (c.1, maskFilter ((allHorizontal l.df preds).values.map Val.toBool) c.2))⟩,
        l.apiVersion⟩ ∧
      ∀ nm vs, (nm, vs) ∈ l.df.cols →
        (maskFilter ((allHorizontal l.df preds).values.map Val.toBool) vs).Sublist vs ∧
        (maskFilter ((allHorizontal l.df preds).values.map Val.toBool) vs).length ≤
          vs.length) := by
  constructor
  · rintro ⟨v, hv, hbool⟩
    have hall : (allHorizontal l.df preds).values.all Val.isBool = false :=
      List.all_eq_false.2 ⟨v, hv, by simp [hbool]⟩
    have heq : validateDataframeComparand l.df (allHorizontal l.df preds) =
        .error .typeErr := by
      unfold validateDataframeComparand
      rw [if_neg (by simp [hall])]
    simp only [LazyFrame.filter, heq]
  · intro hnodup hall hlen
    have hall' : (allHorizontal l.df preds).values.all Val.isBool = true :=
      List.all_eq_true.2 hall
    have heq : validateDataframeComparand l.df (allHorizontal l.df preds) =
        .ok ((allHorizontal l.df preds).values.map Val.toBool) := by
      unfold validateDataframeComparand
      rw [if_pos hall', if_pos hlen]
    have hnames : Frame.names ⟨l.df.cols.map (fun c =>
        (c.1, maskFilter ((allHorizontal l.df preds).values.map Val.toBool) c.2))⟩ =
        l.df.names := by
      simp [Frame.names, List.map_map, Function.comp]
    refine ⟨?_, ?_⟩
    · simp only [LazyFrame.filter, heq]
      exact mkLazyFrame_ok (by rw [hnames]; exact hnodup)
    · intro nm vs _
      exact ⟨maskFilter_sublist _ _, (maskFilter_sublist _ _).length_le⟩

theorem c5_filter_boolean_mask_witness :
    LazyFrame.filter ⟨⟨[("a", [Val.vInt 1, Val.vInt 2, Val.vInt 3])]⟩, "v"⟩
        [fun _ => [⟨"m", [Val.vInt 7, Val.vInt 8, Val.vInt 9]⟩]] =
      .error .typeErr ∧
    LazyFrame.filter ⟨⟨[("a", [Val.vInt 1, Val.vInt 2, Val.vInt 3])]⟩, "v"⟩
        [fun _ => [⟨"m", [Val.vBool true, Val.vBool false, Val.vBool true]⟩]] =
      .ok ⟨⟨[("a", [Val.vInt 1, Val.vInt 3])]⟩, "v"⟩ :=
  ⟨(c5_filter_boolean_mask ⟨⟨[("a", [Val.vInt 1, Val.vInt 2, Val.vInt 3])]⟩, "v"⟩
      [fun _ => [⟨"m", [Val.vInt 7, Val.vInt 8, Val.vInt 9]⟩]]).1 (by decide),
   ((c5_filter_boolean_mask ⟨⟨[("a", [Val.vInt 1, Val.vInt 2, Val.vInt 3])]⟩, "v"⟩
      [fun _ => [⟨"m", [Val.vBool true, Val.vBool false, Val.vBool true]⟩]]).2
      (by decide) (by decide) (by decide)).1⟩

theorem dictInsert_mem {cols : List (String × List Val)} {n : String}
    (vals : List Val) (h : n ∈ cols.map Prod.fst) :
    dictInsert cols (n, vals) = cols.map (fun c => if c.1 = n then (n, vals) else c) := by
  have hany : (cols.any (fun c => c.1 = (n, vals).1)) = true := by
    simp only [List.any_eq_true, decide_eq_true_eq]
    obtain ⟨c, hc, hcn⟩ := List.mem_map.1 h
    exact ⟨c, hc, hcn⟩
  unfold dictInsert
  rw [if_pos hany]

theorem dictInsert_not_mem {cols : List (String × List Val)} {n : String}
    (vals : List Val) (h : n ∉ cols.map Prod.fst) :
    dictInsert cols (n, vals) = cols ++ [(n, vals)] := by
  have hany : ¬ ((cols.any (fun c => c.1 = (n, vals).1)) = true) := by
    simp only [List.any_eq_true, decide_eq_true_eq]
    rintro ⟨c, hc, hcn⟩
    exact h (List.mem_map.2 ⟨c, hc, hcn⟩)
  unfold dictInsert
  rw [if_neg hany]

theorem withColumns_single (l : LazyFrame) (e : Expr) (n : String)
    (vals : List Val) (heval : e l.df = [⟨n, vals⟩]) :
    l.withColumns [e] [] = mkLazyFrame ⟨dictInsert l.df.cols (n, vals)⟩ l.apiVersion := by
  have h0 : pyDict [(n, vals)] = [(n, vals)] := rfl
  simp only [LazyFrame.withColumns, evaluateIntoExprs, List.flatMap_cons, List.flatMap_nil,
    List.append_nil, heval, List.map_cons, List.map_nil, h0, assign, List.foldl_cons,
    List.foldl_nil]

theorem names_upsert (cols : List (String × List Val)) (n : String) (vals : List Val) :
    Frame.names ⟨cols.map (fun c => if c.1 = n then (n, vals) else c)⟩ =
      Frame.names ⟨cols⟩ := by
  show (cols.map (fun c => if c.1 = n then (n, vals) else c)).map Prod.fst = _
  rw [List.map_map]
  exact List.map_congr_left (fun c _ => by
    by_cases hc : c.1 = n <;> simp [Function.comp, hc])

/-- C7: for an expression evaluating to a single Series named `n`,
`with_columns` overwrites an existing column `n` in place — same ordinal
position, every other column, the column order and the row values untouched —
and appends a Series with a new name as the last column; names, row count and
the equal-length invariant are preserved. -/
theorem c7_with_columns_upsert (l : LazyFrame) (e : Expr) (n : String)
    (vals : List Val) (heval : e l.df = [⟨n, vals⟩])
    (hnodup : l.df.names.Nodup) (hwf : l.df.wf)
    (hlen : vals.length = l.df.height) :
    (n ∈ l.df.names →
      l.withColumns [e] [] =
        .ok ⟨⟨l.df.cols.map (fun c => if c.1 = n then (n, vals) else c)⟩, l.apiVersion⟩ ∧
      Frame.names ⟨l.df.cols.map (fun c => if c.1 = n then (n, vals) else c)⟩ =
        l.df.names ∧
      Frame.height ⟨l.df.cols.map (fun c => if c.1 = n then (n, vals) else c)⟩ =
        l.df.height ∧
      Frame.wf ⟨l.df.cols.map (fun c => if c.1 = n then (n, vals) else c)⟩) ∧
    (n ∉ l.df.names →
      l.withColumns [e] [] = .ok ⟨⟨l.df.cols ++ [(n, vals)]⟩, l.apiVersion⟩ ∧
      Frame.names ⟨l.df.cols ++ [(n, vals)]⟩ = l.df.names ++ [n] ∧
      Frame.height ⟨l.df.cols ++ [(n, vals)]⟩ = l.df.height ∧
      Frame.wf ⟨l.df.cols ++ [(n, vals)]⟩) := by
  have hwc := withColumns_single l e n vals heval
  constructor
  · intro hn
    rw [dictInsert_mem vals hn] at hwc
    have hnames := names_upsert l.df.cols n vals
    have hheight : Frame.height ⟨l.df.cols.map
        (fun c => if c.1 = n then (n, vals) else c)⟩ = l.df.height := by
      rcases hc : l.df.cols with _ | ⟨c0, rest⟩
      · exfalso
        simp [Frame.names, hc] at hn
      · have hH : l.df.height = c0.2.length := by simp [Frame.height, hc]
        simp only [hc, List.map_cons, Frame.height]
        by_cases h0 : c0.1 = n
        · rw [if_pos h0]
          exact hlen.trans hH
        · rw [if_neg h0]
    have hwf' : Frame.wf ⟨l.df.cols.map (fun c => if c.1 = n then (n, vals) else c)⟩ := by
      intro c hc
      obtain ⟨c', hc', rfl⟩ := List.mem_map.1 hc
      rw [hheight]
      by_cases h0 : c'.1 = n
      · rw [if_pos h0]
        exact hlen
      · rw [if_neg h0]
        exact hwf c' hc'
    refine ⟨?_, hnames, hheight, hwf'⟩
    rw [hwc]
    exact mkLazyFrame_ok (by rw [hnames]; exact hnodup)
  · intro hn
    rw [dictInsert_not_mem vals hn] at hwc
    have hnames : Frame.names ⟨l.df.cols ++ [(n, vals)]⟩ = l.df.names ++ [n] := by
      show (l.df.cols ++ [(n, vals)]).map Prod.fst = _
      rw [List.map_append]
      rfl
    have hheight : Frame.height ⟨l.df.cols ++ [(n, vals)]⟩ = l.df.height := by
      rcases hc : l.df.cols with _ | ⟨c0, rest⟩
      · exact hlen
      · simp only [hc, List.cons_append, Frame.height]
    have hwf' : Frame.wf ⟨l.df.cols ++ [(n, vals)]⟩ := by
      intro c hc
      rw [hheight]
      rcases List.mem_append.1 hc with h | h
      · exact hwf c h
      · rw [List.mem_singleton.1 h]
        exact hlen
    refine ⟨?_, hnames, hheight, hwf'⟩
    rw [hwc]
    apply mkLazyFrame_ok
    rw [hnames]
    rw [List.nodup_append]
    refine ⟨hnodup, List.nodup_singleton n, ?_⟩
    intro x hx1 hx2
    rw [List.mem_singleton] at hx2
    subst hx2
    exact hn hx1

theorem c7_with_columns_upsert_witness :
    LazyFrame.withColumns
        ⟨⟨[("a", [Val.vInt 1, Val.vInt 2, Val.vInt 3]),
           ("b", [Val.vInt 10, Val.vInt 20, Val.vInt 30])]⟩, "v"⟩
        [fun _ => [⟨"c", [Val.vInt 11, Val.vInt 22, Val.vInt 33]⟩]] [] =
      .ok ⟨⟨[("a", [Val.vInt 1, Val.vInt 2, Val.vInt 3]),
             ("b", [Val.vInt 10, Val.vInt 20, Val.vInt 30]),
             ("c", [Val.vInt 11, Val.vInt 22, Val.vInt 33])]⟩, "v"⟩ ∧
    LazyFrame.withColumns
        ⟨⟨[("a", [Val.vInt 1, Val.vInt 2, Val.vInt 3]),
           ("b", [Val.vInt 10, Val.vInt 20, Val.vInt 30])]⟩, "v"⟩
        [fun _ => [⟨"a", [Val.vInt 7, Val.vInt 8, Val.vInt 9]⟩]] [] =
      .ok ⟨⟨[("a", [Val.vInt 7, Val.vInt 8, Val.vInt 9]),
             ("b", [Val.vInt 10, Val.vInt 20, Val.vInt 30])]⟩, "v"⟩ :=
  ⟨((c7_with_columns_upsert
      ⟨⟨[("a", [Val.vInt 1, Val.vInt 2, Val.vInt 3]),
         ("b", [Val.vInt 10, Val.vInt 20, Val.vInt 30])]⟩, "v"⟩
      (fun _ => [⟨"c", [Val.vInt 11, Val.vInt 22, Val.vInt 33]⟩]) "c"
      [Val.vInt 11, Val.vInt 22, Val.vInt 33] rfl (by decide)
      (by intro c hc; fin_cases hc <;> rfl) (by decide)).2
      (by decide)).1,
   ((c7_with_columns_upsert
      ⟨⟨[("a", [Val.vInt 1, Val.vInt 2, Val.vInt 3]),
         ("b", [Val.vInt 10, Val.vInt 20, Val.vInt 30])]⟩, "v"⟩
      (fun _ => [⟨"a", [Val.vInt 7, Val.vInt 8, Val.vInt 9]⟩]) "a"
      [Val.vInt 7, Val.vInt 8, Val.vInt 9] rfl (by decide)
      (by intro c hc; fin_cases hc <;> rfl) (by decide)).1
      (by decide)).1⟩

theorem sortIndices_pairwise (ks : List (List Val × Bool)) (n : Nat) :
    (sortIndices ks n).Pairwise (fun i j => rowLe ks i j = true) :=
  insertionSort_pairwise (rowLe_trans ks) (rowLe_total ks) (List.range n)

/-- C8: `sort` with no keys sorts by all existing columns, ascending (the
scalar `descending=False` default broadcasts to every key); a scalar
descending flag broadcasts negated to all keys and a per-key descending
sequence is negated element-wise into the engine's `ascending`; and the row
order the sort produces is a permutation of the original rows that is sorted
under the key comparison and stable: any set of rows whose key values all
agree keeps its original relative order. -/
theorem c8_sort_defaults_and_stability (l : LazyFrame)
    (keys : List (String ⊕ List String)) (b : Bool) (ds : List Bool)
    (ks : List (List Val × Bool)) (n : Nat) :
    l.sort [] (.inl false) =
      mkLazyFrame (sortValues l.df l.df.names
        (List.replicate l.df.names.length true)) l.apiVersion ∧
    (flattenStr keys ≠ [] →
      l.sort keys (.inl b) =
        mkLazyFrame (sortValues l.df (flattenStr keys)
          (List.replicate (flattenStr keys).length (!b))) l.apiVersion) ∧
    (flattenStr keys ≠ [] →
      l.sort keys (.inr ds) =
        mkLazyFrame (sortValues l.df (flattenStr keys)
          (ds.map (fun d => !d))) l.apiVersion) ∧
    (sortIndices ks n).Perm (List.range n) ∧
    (sortIndices ks n).Pairwise (fun i j => rowLe ks i j = true) ∧
    (∀ p : Nat → Bool,
      (∀ i j, p i = true → p j = true → keyValsAt ks i = keyValsAt ks j) →
      ((sortIndices ks n).filter p).Pairwise (· ≤ ·)) := by
  refine ⟨rfl, ?_, ?_, insertionSort_perm _ _, sortIndices_pairwise ks n, ?_⟩
  · intro h
    simp only [LazyFrame.sort]
    rw [if_neg h]
  · intro h
    simp only [LazyFrame.sort]
    rw [if_neg h]
  · intro p hp
    have hf := (sortIndices_pairwise ks n).filter p
    refine hf.imp_of_mem ?_
    intro a b' ha hb hr
    have hpa := (List.mem_filter.1 ha).2
    have hpb := (List.mem_filter.1 hb).2
    rw [rowLe_of_keyValsAt_eq (hp a b' hpa hpb)] at hr
    exact of_decide_eq_true hr

theorem c8_sort_defaults_and_stability_witness :
    LazyFrame.sort ⟨⟨[("a", [Val.vInt 3, Val.vInt 1, Val.vInt 2])]⟩, "v"⟩
        [.inl "a"] (.inl true) =
      mkLazyFrame (sortValues ⟨[("a", [Val.vInt 3, Val.vInt 1, Val.vInt 2])]⟩
        ["a"] [false]) "v" ∧
    LazyFrame.sort ⟨⟨[("a", [Val.vInt 3, Val.vInt 1, Val.vInt 2])]⟩, "v"⟩
        [.inl "a"] (.inr [true]) =
      mkLazyFrame (sortValues ⟨[("a", [Val.vInt 3, Val.vInt 1, Val.vInt 2])]⟩
        ["a"] [false]) "v" ∧
    ((sortIndices [([Val.vInt 1, Val.vInt 1, Val.vInt 0], true)] 3).filter
      (fun i => decide (i < 2))).Pairwise (· ≤ ·) :=
  ⟨(c8_sort_defaults_and_stability ⟨⟨[("a", [Val.vInt 3, Val.vInt 1, Val.vInt 2])]⟩, "v"⟩
      [.inl "a"] true [true] [([Val.vInt 1, Val.vInt 1, Val.vInt 0], true)] 3).2.1
      (by decide),
   (c8_sort_defaults_and_stability ⟨⟨[("a", [Val.vInt 3, Val.vInt 1, Val.vInt 2])]⟩, "v"⟩
      [.inl "a"] true [true] [([Val.vInt 1, Val.vInt 1, Val.vInt 0], true)] 3).2.2.1
      (by decide),
   (c8_sort_defaults_and_stability ⟨⟨[("a", [Val.vInt 3, Val.vInt 1, Val.vInt 2])]⟩, "v"⟩
      [.inl "a"] true [true] [([Val.vInt 1, Val.vInt 1, Val.vInt 0], true)] 3).2.2.2.2.2
      (fun i => decide (i < 2))
      (by
        intro i j hi hj
        have hi2 : i < 2 := by simpa using hi
        have hj2 : j < 2 := by simpa using hj
        interval_cases i <;> interval_cases j <;> rfl)⟩

end PolarsApiCompat
